import Mathlib

/-!
# Verification of the medical-relevance detection pipeline

A shallow embedding of the repository's `MedicalDetector` (crawler adapter
layer), its taxonomy tables (`types.ts`) and the schema validator
(`validator.ts`), with theorems settling the specification's claims.

Modelling conventions:
* Text is `String` / `List Char`; all regexes in the source are built from a
  small, fixed repertoire (word boundaries `\b`, case-insensitive literals,
  `\s*`/`\s+`, `\d`-runs, `[^\s]+`, and a handful of alternations), so each
  compiled pattern is embedded as an anchored matcher
  `Option Char → List Char → Option Nat`: given the character preceding the
  current position and the remaining input, return the length of the match
  starting here (JavaScript semantics: leftmost position, alternatives in
  written order, greedy quantifiers with the — here always forced —
  backtracking against trailing `\b`).
* JavaScript numbers are modelled as exact rationals `ℚ`.  Every numeric
  comparison the detector performs is at least 0.05 away from equality except
  for score ties that are exact in binary floating point as well, so the
  rational model is behaviourally faithful.
* The `g`-flag statefulness of `RegExp.prototype.test` (the `lastIndex`
  property) is modelled explicitly for the module-level `CITATION_PATTERNS`
  object; all other regexes in the source are freshly constructed per call
  (or lack the `g` flag) and are modelled as stateless.
-/

namespace Pipeline

unseal Rat.mul Rat.inv Rat.add Rat.sub Rat.ofScientific

/-! ## JS regex primitives -/

/-- JS `\w`: ASCII letters, digits and underscore. -/
def wordChar (c : Char) : Bool := c.isAlphanum || c = '_'

/-- Wordness of an optional character; out of bounds counts as non-word. -/
def isWordOpt : Option Char → Bool
  | none => false
  | some c => wordChar c

/-- JS `\b`: exactly one side of the position holds a word character. -/
def boundaryB (a b : Option Char) : Bool := isWordOpt a != isWordOpt b

/-- JS `\s` (the ASCII fragment occurring in this corpus). -/
def spaceChar (c : Char) : Bool :=
  c = ' ' || c = '\t' || c = '\n' || c = '\r' || c = '\x0b' || c = '\x0c'

/-- Case-insensitive character equality (the `i` flag, ASCII simple folding). -/
def ciEq (a b : Char) : Bool := a.toLower == b.toLower

/-- If `cs` starts with `pat` up to case, return the rest of `cs`. -/
def ciStrip : List Char → List Char → Option (List Char)
  | [], cs => some cs
  | _ :: _, [] => none
  | p :: ps, c :: cs => if ciEq p c then ciStrip ps cs else none

/-- An anchored matcher: the character before the position and the remaining
input, to the length of the match starting at this position (if any). -/
def Matcher : Type := Option Char → List Char → Option Nat

/-- First match at or after this position: `some (start, length)` with `start`
counted from the current position, scanning left to right as the JS engine
does. -/
def firstLen (M : Matcher) : Option Char → List Char → Option (Nat × Nat)
  | prev, [] =>
    match M prev [] with
    | some L => some (0, L)
    | none => none
  | prev, c :: rest =>
    match M prev (c :: rest) with
    | some L => some (0, L)
    | none => (firstLen M (some c) rest).map (fun p => (p.1 + 1, p.2))

/-- `RegExp.prototype.test` on a freshly created regex (`lastIndex = 0`):
does any match exist. -/
def testM (M : Matcher) (t : String) : Bool :=
  (firstLen M none t.data).isSome

/-- The list of matches `String.prototype.match` returns for a `g`-flag
regex: repeated leftmost search, resuming after each (non-empty) match; a
zero-width match advances one position.  `fuel` is consumed once per step and
`input.length + 1` always suffices. -/
def scanAux (M : Matcher) : Nat → Option Char → List Char → List (List Char)
  | 0, _, _ => []
  | fuel + 1, prev, cs =>
    match M prev cs with
    | some (L + 1) =>
        (cs.take (L + 1)) :: scanAux M fuel ((cs.take (L + 1)).getLast?) (cs.drop (L + 1))
    | some 0 =>
        [] :: (match cs with
          | [] => []
          | c :: rest => scanAux M fuel (some c) rest)
    | none =>
        match cs with
        | [] => []
        | c :: rest => scanAux M fuel (some c) rest

/-- All matches of a `g`-flag regex in `t` (JS `t.match(re) ?? []`). -/
def scanM (M : Matcher) (t : String) : List (List Char) :=
  scanAux M (t.data.length + 1) none t.data

/-- Number of matches (`t.match(re)` is `null` when there are none, and the
source adds `matches.length` only behind an `if (matches)`). -/
def countM (M : Matcher) (t : String) : Nat := (scanM M t).length

/-- `test` on a SHARED `g`-flag regex: JS consults and updates `lastIndex`.
The search starts at `lastIndex` (failing at once if it exceeds the input);
on success `lastIndex` becomes the match end, on failure it is reset to 0. -/
def gTestM (M : Matcher) (t : String) (li : Nat) : Bool × Nat :=
  if li > t.data.length then (false, 0)
  else
    match firstLen M ((t.data.take li).getLast?) (t.data.drop li) with
    | some (s, L) => (true, li + s + L)
    | none => (false, 0)

/-! ## The matchers occurring in the source -/

/-- `new RegExp("\\b" + escapeRegex(lit) + "\\b", "gi")`: since `escapeRegex`
escapes every metacharacter, the body is the literal string `lit`. -/
def litB (pat : List Char) : Matcher := fun prev cs =>
  match pat with
  | [] => none
  | _ :: _ =>
    if boundaryB prev cs.head? then
      match ciStrip pat cs with
      | some rest =>
          if boundaryB ((cs.take pat.length).getLast?) rest.head? then
            some pat.length
          else none
      | none => none
    else none

/-- `\b` + literal, nothing asserted after it (used for `/\bto:\s*/i` etc.,
whose trailing `\s*` always succeeds and adds nothing to a presence test). -/
def litStartB (pat : List Char) : Matcher := fun prev cs =>
  match pat with
  | [] => none
  | _ :: _ =>
    if boundaryB prev cs.head? then
      match ciStrip pat cs with
      | some _ => some pat.length
      | none => none
    else none

/-- Literal + `\b`, nothing asserted before it (the `methods\b` arm of
`/\bmethodology|methods\b/i`). -/
def litEndB (pat : List Char) : Matcher := fun _prev cs =>
  match pat with
  | [] => none
  | _ :: _ =>
    match ciStrip pat cs with
    | some rest =>
        if boundaryB ((cs.take pat.length).getLast?) rest.head? then
          some pat.length
        else none
    | none => none

/-- `/\bmethodology|methods\b/i` — the alternation binds loosely, so the `\b`
on the left belongs to the first arm only and the `\b` on the right to the
second arm only. -/
def methodsM : Matcher := fun prev cs =>
  match litStartB "methodology".data prev cs with
  | some L => some L
  | none => litEndB "methods".data prev cs

/-- `/\bstep\s+\d+/i`: both greedy runs are forced (a shorter `\s+` leaves a
space where a digit is required). -/
def stepNumB : Matcher := fun prev cs =>
  if boundaryB prev cs.head? then
    match ciStrip "step".data cs with
    | some r1 =>
        let sp := r1.takeWhile spaceChar
        if sp.isEmpty then none
        else
          let r2 := r1.drop sp.length
          let ds := r2.takeWhile Char.isDigit
          if ds.isEmpty then none else some (4 + sp.length + ds.length)
    | none => none
  else none

/-- `\bw1\s+(a|b|…)\b` (the noise patterns): greedy `\s+` is forced because
every alternative starts with a non-space character. -/
def phraseB (w1 : List Char) (alts : List (List Char)) : Matcher := fun prev cs =>
  if boundaryB prev cs.head? then
    match ciStrip w1 cs with
    | some r1 =>
        let sp := r1.takeWhile spaceChar
        if sp.isEmpty then none
        else
          let r2 := r1.drop sp.length
          alts.findSome? fun a =>
            match ciStrip a r2 with
            | some r3 =>
                if boundaryB ((r2.take a.length).getLast?) r3.head? then
                  some (w1.length + sp.length + a.length)
                else none
            | none => none
    | none => none
  else none

/-- The date shape `\d{4}-\d{2}-\d{2}` of exactly ten characters. -/
def isDateShape : List Char → Bool
  | [a, b, c, d, e, f, g, h, i, j] =>
    a.isDigit && b.isDigit && c.isDigit && d.isDigit && e == '-' &&
      f.isDigit && g.isDigit && h == '-' && i.isDigit && j.isDigit
  | _ => false

/-- `/\b(\d{4}-\d{2}-\d{2})\b/g` — the date extractor's pattern. -/
def dateM : Matcher := fun prev cs =>
  if isDateShape (cs.take 10) && boundaryB prev cs.head? &&
      boundaryB ((cs.take 10).getLast?) ((cs.drop 10).head? ) then
    some 10
  else none

/-- `[^\s]+\b` at the end of a pattern: the greedy run backtracks until the
trailing boundary holds.  Given the non-space run and the character following
it, return the longest usable prefix length (`≥ 1`). -/
def wbCut : List Char → Option Char → Option Nat
  | [], _ => none
  | [c], next => if boundaryB (some c) next then some 1 else none
  | c :: d :: rest, next =>
    match wbCut (d :: rest) next with
    | some k => some (k + 1)
    | none => if boundaryB (some c) (some d) then some 1 else none

/-- Helper: match `[^\s]+\b` against `r`, returning its length. -/
def nonSpaceTailB (r : List Char) : Option Nat :=
  let run := r.takeWhile (fun c => !spaceChar c)
  wbCut run ((r.drop run.length).head?)

/-- `\d+\b` at the end of a pattern: the maximal digit run (backtracking
cannot help since giving a digit back re-creates a word character). -/
def digitsTailB (r : List Char) : Option Nat :=
  let ds := r.takeWhile Char.isDigit
  match ds with
  | [] => none
  | _ :: _ =>
    if boundaryB ds.getLast? ((r.drop ds.length).head?) then some ds.length else none

/-- `CITATION_PATTERNS.doi = /\b(10\.\d{4,}\/[^\s]+)\b/g`. -/
def doiM : Matcher := fun prev cs =>
  if boundaryB prev cs.head? then
    match ciStrip "10.".data cs with
    | some r1 =>
        let ds := r1.takeWhile Char.isDigit
        if ds.length < 4 then none
        else
          match r1.drop ds.length with
          | '/' :: r2 =>
              match nonSpaceTailB r2 with
              | some j => some (3 + ds.length + 1 + j)
              | none => none
          | _ => none
    | none => none
  else none

/-- `CITATION_PATTERNS.doiUrl = /\b(https?:\/\/doi\.org\/[^\s]+)\b/gi`
(`s?` is greedy; the two expansions cannot overlap, so trying the two
literals in order is exact). -/
def doiUrlM : Matcher := fun prev cs =>
  if boundaryB prev cs.head? then
    match ciStrip "https://doi.org/".data cs with
    | some r1 =>
        match nonSpaceTailB r1 with
        | some j => some (16 + j)
        | none => none
    | none =>
        match ciStrip "http://doi.org/".data cs with
        | some r1 =>
            match nonSpaceTailB r1 with
            | some j => some (15 + j)
            | none => none
        | none => none
  else none

/-- `CITATION_PATTERNS.pmid =
/\b(PMID:\s*\d+|PubMed ID:\s*\d+|pubmed\.ncbi\.nlm\.nih\.gov\/(\d+))\b/gi`,
alternatives in written order; in each, greedy `\s*` is forced by the
following `\d`. -/
def pmidM : Matcher := fun prev cs =>
  if boundaryB prev cs.head? then
    let arm : List Char → Bool → Option Nat := fun lit withSpaces =>
      match ciStrip lit cs with
      | some r1 =>
          let sp := if withSpaces then r1.takeWhile spaceChar else []
          let r2 := r1.drop sp.length
          match digitsTailB r2 with
          | some j => some (lit.length + sp.length + j)
          | none => none
      | none => none
    match arm "PMID:".data true with
    | some L => some L
    | none =>
      match arm "PubMed ID:".data true with
      | some L => some L
      | none => arm "pubmed.ncbi.nlm.nih.gov/".data false
  else none

/-- `\d+\.\d+\b` at the end of the arXiv alternatives: both digit runs are
forced maximal. -/
def numDotNumTailB (r : List Char) : Option Nat :=
  let d1 := r.takeWhile Char.isDigit
  match d1 with
  | [] => none
  | _ :: _ =>
    match r.drop d1.length with
    | '.' :: r2 =>
        match digitsTailB r2 with
        | some j => some (d1.length + 1 + j)
        | none => none
    | _ => none

/-- `CITATION_PATTERNS.arxiv = /\b(arxiv\.org\/abs\/\d+\.\d+|arXiv:\d+\.\d+)\b/gi`. -/
def arxivM : Matcher := fun prev cs =>
  if boundaryB prev cs.head? then
    match ciStrip "arxiv.org/abs/".data cs with
    | some r1 =>
        match numDotNumTailB r1 with
        | some j => some (14 + j)
        | none => none
    | none =>
        match ciStrip "arXiv:".data cs with
        | some r1 =>
            match numDotNumTailB r1 with
            | some j => some (6 + j)
            | none => none
        | none => none
  else none

/-! ## Taxonomy (`types.ts`) -/

/-- `MedicalConcept` of `types.ts`; `weight` is a JS number, modelled in ℚ. -/
structure MedicalConcept where
  name : String
  aliases : List String
  coTerms : List String
  weight : ℚ
deriving DecidableEq

/-- The intervention tier adds concrete `examples`, scored like aliases. -/
structure Intervention extends MedicalConcept where
  examples : List String
deriving DecidableEq

/-- `PRIMARY_CONCEPTS`, in source (and hence `Map`-iteration) order. -/
def PRIMARY_CONCEPTS : List (String × MedicalConcept) := [
  ("MITOCHONDRIA", ⟨"MITOCHONDRIA",
    ["mitochondrial", "mitochondrion", "OXPHOS", "ATP", "electron transport"],
    ["energy", "cellular respiration", "Complex I", "Complex IV"], 1.0⟩),
  ("SENESCENCE", ⟨"SENESCENCE",
    ["cellular senescence", "senescent", "aging", "age-related"],
    ["p16", "p21", "telomere", "autophagy"], 0.95⟩),
  ("NAD_METABOLISM", ⟨"NAD_METABOLISM",
    ["NAD+", "NAD", "nicotinamide adenine", "NADH", "sirtuin"],
    ["mitochondria", "energy", "aging", "longevity"], 0.98⟩),
  ("PLASMA_EXCHANGE", ⟨"PLASMA_EXCHANGE",
    ["plasmapheresis", "plasma exchange", "apheresis", "TPE"],
    ["antibodies", "autoimmune", "therapeutic"], 0.92⟩),
  ("STEM_CELLS", ⟨"STEM_CELLS",
    ["mesenchymal stem cells", "MSC", "hematopoietic", "pluripotent"],
    ["regeneration", "tissue repair", "differentiation"], 0.90⟩),
  ("PHOTOBIOMODULATION", ⟨"PHOTOBIOMODULATION",
    ["red light therapy", "PBM", "light therapy", "phototherapy"],
    ["mitochondria", "cytochrome c oxidase", "ATP"], 0.88⟩),
  ("CAR_T_CELLS", ⟨"CAR_T_CELLS",
    ["CAR-T", "chimeric antigen receptor", "adoptive cell therapy"],
    ["cancer", "immunotherapy", "engineering"], 0.85⟩),
  ("IMMUNOTHERAPY", ⟨"IMMUNOTHERAPY",
    ["checkpoint inhibitor", "PD-1", "PD-L1", "CTLA-4", "immune checkpoint"],
    ["cancer", "antibody", "T cell"], 0.87⟩),
  ("EXOSOMES", ⟨"EXOSOMES",
    ["extracellular vesicles", "EVs", "microvesicles", "exosome therapy"],
    ["regeneration", "signaling", "delivery"], 0.83⟩),
  ("LONGEVITY", ⟨"LONGEVITY",
    ["lifespan", "healthspan", "life extension", "anti-aging"],
    ["aging", "senescence", "disease prevention"], 0.91⟩)]

/-- `SECONDARY_CONCEPTS`, in source order. -/
def SECONDARY_CONCEPTS : List (String × MedicalConcept) := [
  ("AUTOPHAGY", ⟨"AUTOPHAGY",
    ["macroautophagy", "chaperone-mediated autophagy", "mTOR"],
    ["cellular cleanup", "aging", "disease"], 0.75⟩),
  ("TELOMERES", ⟨"TELOMERES",
    ["telomere", "telomerase", "TERT"],
    ["aging", "senescence", "replicative limit"], 0.78⟩),
  ("EPIGENETICS", ⟨"EPIGENETICS",
    ["DNA methylation", "histone modification", "epigenetic clock"],
    ["aging", "gene expression", "reversibility"], 0.72⟩),
  ("METABOLIC_HEALTH", ⟨"METABOLIC_HEALTH",
    ["metabolic syndrome", "insulin sensitivity", "glucose metabolism"],
    ["aging", "disease", "mitochondria"], 0.70⟩),
  ("INFLAMMATION", ⟨"INFLAMMATION",
    ["inflammaging", "chronic inflammation", "cytokine"],
    ["aging", "disease", "immune"], 0.73⟩),
  ("PROTEIN_FOLDING", ⟨"PROTEIN_FOLDING",
    ["proteostasis", "chaperone", "unfolded protein response"],
    ["aging", "neurodegeneration", "disease"], 0.68⟩)]

/-- `INTERVENTIONS`, in source order. -/
def INTERVENTIONS : List (String × Intervention) := [
  ("SENOLYTICS", ⟨⟨"SENOLYTICS",
    ["senolytic", "senescent cell clearance"],
    ["aging", "clearance", "treatment"], 0.85⟩,
    ["dasatinib", "quercetin", "fisetin"]⟩),
  ("NAD_BOOSTERS", ⟨⟨"NAD_BOOSTERS",
    ["NAD+ precursor", "NMN", "NR", "nicotinamide riboside"],
    ["NAD+", "supplement", "longevity"], 0.90⟩,
    ["NMN", "NR", "NADH"]⟩),
  ("RAPAMYCIN", ⟨⟨"RAPAMYCIN",
    ["mTOR inhibitor", "sirolimus"],
    ["mTOR", "autophagy", "longevity"], 0.82⟩,
    ["rapamycin", "everolimus"]⟩),
  ("METFORMIN", ⟨⟨"METFORMIN",
    ["biguanide", "anti-diabetic"],
    ["diabetes", "longevity", "metabolic"], 0.75⟩,
    ["metformin"]⟩),
  ("CALORIC_RESTRICTION", ⟨⟨"CALORIC_RESTRICTION",
    ["CR", "intermittent fasting", "IF", "time-restricted eating"],
    ["fasting", "longevity", "metabolic"], 0.78⟩,
    ["fasting", "caloric restriction"]⟩)]

/-- The constructor's `allConcepts` map: primary and secondary entries merged
in insertion order (names are pairwise distinct, so nothing is overwritten). -/
def allConcepts : List (String × MedicalConcept) :=
  PRIMARY_CONCEPTS ++ SECONDARY_CONCEPTS

/-! ## `MedicalDetector` -/

/-- Matches of one alias (or example): `text.match(new RegExp("\\b" +
escapeRegex(a) + "\\b", "gi"))`, counted. -/
def countAlias (a : String) (t : String) : Nat := countM (litB a.data) t

/-- One alias's presence: a fresh `gi` regex's `.test(text)` (fresh, so
`lastIndex` starts at 0). -/
def testAlias (a : String) (t : String) : Bool := testM (litB a.data) t

/-- The per-concept `count` accumulated over the concept's aliases. -/
def conceptCount (c : MedicalConcept) (t : String) : Nat :=
  (c.aliases.map (fun a => countAlias a t)).sum

/-- An intervention's `count`: aliases, then the concrete `examples`. -/
def interventionCount (iv : Intervention) (t : String) : Nat :=
  conceptCount iv.toMedicalConcept t + (iv.examples.map (fun e => countAlias e t)).sum

/-- `MedicalDetector.scoreConceptHits`: the `hits` record in insertion order —
primary+secondary concepts first, then interventions; a key is present exactly
when its `count` is positive, with value `count * weight`. -/
def scoreConceptHits (t : String) : List (String × ℚ) :=
  (allConcepts.filterMap fun p =>
    let cnt := conceptCount p.2 t
    if cnt > 0 then some (p.1, (cnt : ℚ) * p.2.weight) else none)
  ++ (INTERVENTIONS.filterMap fun p =>
    let cnt := interventionCount p.2 t
    if cnt > 0 then some (p.1, (cnt : ℚ) * p.2.weight) else none)

/-- `String.prototype.toLowerCase` (ASCII), acting characterwise. -/
def jsToLower (s : String) : String := String.mk (s.data.map Char.toLower)

/-- `Set.prototype.add` on a list kept in insertion order. -/
def pushUnique (acc : List String) (s : String) : List String :=
  if s ∈ acc then acc else acc ++ [s]

/-- `MedicalDetector.extractMedicalTerms`: a concept's lowercased name is
added when some alias tests positive (`break` after the first hit); the
interventions contribute their aliases only, not their examples. -/
def extractMedicalTerms (t : String) : List String :=
  let l1 := allConcepts.foldl (fun acc p =>
    if p.2.aliases.any (fun a => testAlias a t) then pushUnique acc (jsToLower p.1)
    else acc) []
  INTERVENTIONS.foldl (fun acc p =>
    if p.2.aliases.any (fun a => testAlias a t) then pushUnique acc (jsToLower p.1)
    else acc) l1

/-- `CitationSignals`: the three flags `detectCitations` returns. -/
structure CitationSignals where
  has_doi : Bool
  has_pmid : Bool
  has_arxiv : Bool
deriving DecidableEq

/-- The mutable `lastIndex` properties of the module-level
`CITATION_PATTERNS` object (all four regexes carry the `g` flag). -/
structure CitState where
  doiLI : Nat
  doiUrlLI : Nat
  pmidLI : Nat
  arxivLI : Nat
deriving DecidableEq

/-- The state of a freshly loaded module: every `lastIndex` is 0. -/
def CitState.init : CitState := ⟨0, 0, 0, 0⟩

/-- `MedicalDetector.detectCitations` with the shared regex state made
explicit.  `has_doi` is `doi.test(text) || doiUrl.test(text)`: JS `||`
short-circuits, so `doiUrl`'s `lastIndex` moves only when the bare-DOI test
failed. -/
def detectCitationsSt (st : CitState) (t : String) : CitationSignals × CitState :=
  let d := gTestM doiM t st.doiLI
  let du := if d.1 then (false, st.doiUrlLI) else gTestM doiUrlM t st.doiUrlLI
  let pm := gTestM pmidM t st.pmidLI
  let ax := gTestM arxivM t st.arxivLI
  (⟨d.1 || du.1, pm.1, ax.1⟩, ⟨d.2, du.2, pm.2, ax.2⟩)

/-- `detectCitations` as seen on the FIRST call after module load. -/
def detectCitations (t : String) : CitationSignals :=
  (detectCitationsSt CitState.init t).1

/-- `MedicalDetector.extractDates`: all `\b\d{4}-\d{2}-\d{2}\b` matches,
deduplicated by `new Set` (insertion order kept). -/
def extractDates (t : String) : List String :=
  (scanM dateM t).foldl (fun acc m => pushUnique acc (String.mk m)) []

/-- `DocType` of `types.ts`. -/
inductive DocType
  | PAPER_LIKE
  | REPORT_LIKE
  | MEMO_LIKE
  | PROTOCOL_LIKE
  | PROPOSAL_LIKE
  | UNKNOWN
deriving DecidableEq

/-- One row of `DOC_TYPE_PATTERNS`. -/
structure DocTypeConfig where
  patterns : List Matcher
  minMatches : Nat
  weight : ℚ

/-- `DOC_TYPE_PATTERNS` of `types.ts` (none of these regexes has the `g`
flag, so their `.test` calls are stateless). -/
def DOC_TYPE_PATTERNS : DocType → DocTypeConfig
  | .PAPER_LIKE =>
    ⟨[litB "abstract".data, litB "introduction".data, methodsM,
      litB "results".data, litB "discussion".data, litB "conclusion".data,
      litB "references".data], 3, 1.0⟩
  | .REPORT_LIKE =>
    ⟨[litB "executive summary".data, litB "findings".data,
      litB "recommendations".data, litB "analysis".data,
      litB "conclusion".data], 2, 0.85⟩
  | .MEMO_LIKE =>
    ⟨[litStartB "to:".data, litStartB "from:".data, litStartB "date:".data,
      litStartB "subject:".data, litStartB "re:".data], 3, 0.70⟩
  | .PROTOCOL_LIKE =>
    ⟨[litB "protocol".data, litB "procedure".data, stepNumB,
      litB "method".data, litB "instruction".data], 2, 0.80⟩
  | .PROPOSAL_LIKE =>
    ⟨[litB "proposal".data, litB "budget".data, litB "timeline".data,
      litB "objective".data, litB "deliverable".data], 2, 0.75⟩
  | .UNKNOWN => ⟨[], 0, 0⟩

/-- The five candidates, in the source's fixed evaluation order. -/
def docTypesOrder : List DocType :=
  [.PAPER_LIKE, .REPORT_LIKE, .MEMO_LIKE, .PROTOCOL_LIKE, .PROPOSAL_LIKE]

/-- How many of a type's patterns test positive (presence, not count). -/
def docTally (dt : DocType) (t : String) : Nat :=
  (DOC_TYPE_PATTERNS dt).patterns.countP (fun M => testM M t)

/-- `MedicalDetector.classifyDocument`: the forward fold over the candidate
types, updating `(bestType, bestScore)` on a strictly larger qualifying
score. -/
def classifyDocument (t : String) : DocType :=
  (docTypesOrder.foldl (fun best dt =>
    let cfg := DOC_TYPE_PATTERNS dt
    let m := docTally dt t
    if m ≥ cfg.minMatches then
      let score := (m : ℚ) * cfg.weight
      if score > best.2 then (dt, score) else best
    else best) (DocType.UNKNOWN, 0)).1

/-- `NOISE_PATTERNS` (no `g` flag): named individually so claims can refer
to a single phrase. -/
def noiseEnergyDrink : Matcher := phraseB "energy".data ["drink".data]

def noiseTherapyAnimal : Matcher := phraseB "therapy".data ["dog".data, "animal".data]

def noiseGasStation : Matcher := phraseB "gas".data ["station".data, "pump".data]

def noiseCellPhone : Matcher := phraseB "cell".data ["phone".data]

def NOISE_PATTERNS : List Matcher :=
  [noiseEnergyDrink, noiseTherapyAnimal, noiseGasStation, noiseCellPhone]

/-- `MedicalDetector.isNoise`. -/
def isNoise (t : String) : Bool := NOISE_PATTERNS.any (fun M => testM M t)

/-- JS `Math.round`: half goes toward `+∞` (for the non-negative values
rounded here, that is "half away from zero"). -/
def jsRound (q : ℚ) : ℤ := ⌊q + 1 / 2⌋

/-- The `docTypeBonus` lookup table of `calculateConfidence`. -/
def docTypeBonus : DocType → ℚ
  | .PAPER_LIKE => 0.15
  | .REPORT_LIKE => 0.10
  | .PROTOCOL_LIKE => 0.12
  | .PROPOSAL_LIKE => 0.08
  | .MEMO_LIKE => 0.05
  | .UNKNOWN => 0

/-- `MedicalDetector.calculateConfidence`: mean of the hit values clamped at
1 (0 when empty), plus citation and document-type bonuses, clamped at 1 and
rounded to two decimals via `Math.round(c * 100) / 100`. -/
def calculateConfidence (hits : List (String × ℚ)) (cit : CitationSignals)
    (dt : DocType) : ℚ :=
  let hitScores := hits.map Prod.snd
  let baseScore : ℚ :=
    if hitScores.length > 0 then min (hitScores.sum / hitScores.length) 1 else 0
  let citationBonus : ℚ :=
    (if cit.has_doi then (0.15 : ℚ) else 0) +
      (if cit.has_pmid then (0.15 : ℚ) else 0) +
      (if cit.has_arxiv then (0.10 : ℚ) else 0)
  let confidence := min (baseScore + citationBonus + docTypeBonus dt) 1
  (jsRound (confidence * 100) : ℚ) / 100

/-- `AnalysisResult`: the record `analyze` returns. -/
structure AnalysisResult where
  medicalTerms : List String
  conceptHits : List (String × ℚ)
  citations : CitationSignals
  docType : DocType
  dates : List String
  confidence : ℚ
  isNoise : Bool
deriving DecidableEq

/-- `MedicalDetector.analyze` with the shared citation-regex state made
explicit; every other component is stateless. -/
def analyzeSt (st : CitState) (t : String) : AnalysisResult × CitState :=
  let cit := detectCitationsSt st t
  let conceptHits := scoreConceptHits t
  let docType := classifyDocument t
  (⟨extractMedicalTerms t, conceptHits, cit.1, docType, extractDates t,
    calculateConfidence conceptHits cit.1 docType, isNoise t⟩, cit.2)

/-- `analyze` on a freshly loaded module (first call). -/
def analyze (t : String) : AnalysisResult := (analyzeSt CitState.init t).1

/-! ## Schema validator (`validator.ts`) -/

/-- A JSON-ish JavaScript value as the validator inspects it. -/
inductive JsVal
  | str (s : String)
  | num (q : ℚ)
  | bool (b : Bool)
  | arr (xs : List JsVal)
  | obj (fields : List (String × JsVal))
  | null

/-- `Array.isArray(v) ? "array" : typeof v` (JS: `typeof null` is
`"object"`). -/
def jsTypeName : JsVal → String
  | .str _ => "string"
  | .num _ => "number"
  | .bool _ => "boolean"
  | .arr _ => "array"
  | .obj _ => "object"
  | .null => "object"

/-- `REQUIRED_FIELDS` of `validator.ts`, in order. -/
def REQUIRED_FIELDS : List String :=
  ["file_url", "source", "title", "medical_terms_found", "concept_hits",
   "confidence", "snippet", "doc_type", "timestamp"]

/-- `FIELD_TYPES` of `validator.ts`, in `Object.entries` order. -/
def FIELD_TYPES : List (String × String) :=
  [("file_url", "string"), ("source", "string"), ("title", "string"),
   ("medical_terms_found", "array"), ("concept_hits", "object"),
   ("confidence", "number"), ("snippet", "string"), ("has_doi", "boolean"),
   ("has_pmid", "boolean"), ("has_arxiv", "boolean"), ("doc_type", "string"),
   ("dates", "array"), ("timestamp", "string")]

/-- A `ValidationError`; `value = none` models JS `undefined`. -/
structure ValidationError where
  path : String
  message : String
  value : Option JsVal

/-- A `ValidationWarning`. -/
structure ValidationWarning where
  path : String
  message : String
  suggestion : String
deriving DecidableEq

/-- A `ValidationResult`. -/
structure ValidationResult where
  valid : Bool
  errors : List ValidationError
  warnings : List ValidationWarning

/-- `field in fileObj`. -/
def hasField (fields : List (String × JsVal)) (k : String) : Bool :=
  (fields.lookup k).isSome

/-- `SchemaValidator.validateFile` on an object record (the only shape the
claims exercise; a non-object input short-circuits to a single error). -/
def validateFile (file : JsVal) : ValidationResult :=
  match file with
  | .obj fields =>
    let missing : List ValidationError :=
      REQUIRED_FIELDS.filterMap fun f =>
        if hasField fields f then none
        else some ⟨f, "Missing required field: " ++ f, none⟩
    let typeErrs : List ValidationError :=
      FIELD_TYPES.filterMap fun ft =>
        match fields.lookup ft.1 with
        | some v =>
            if jsTypeName v ≠ ft.2 then
              some ⟨ft.1, "Field " ++ ft.1 ++ " has wrong type. Expected " ++
                ft.2 ++ ", got " ++ jsTypeName v, some v⟩
            else none
        | none => none
    let rangeErrs : List ValidationError :=
      match fields.lookup "confidence" with
      | some (.num q) =>
          if q < 0 ∨ q > 1 then
            [⟨"confidence", "Confidence must be between 0 and 1", some (.num q)⟩]
          else []
      | _ => []
    let emptyTermsWarns : List ValidationWarning :=
      match fields.lookup "medical_terms_found" with
      | some (.arr xs) =>
          if xs.isEmpty then
            [⟨"medical_terms_found",
              "medical_terms_found is empty - may indicate false positive",
              "Consider filtering out this result"⟩]
          else []
      | _ => []
    let snippetWarns : List ValidationWarning :=
      match fields.lookup "snippet" with
      | some (.str s) =>
          if s.length < 20 then
            [⟨"snippet", "Snippet is very short - may not contain enough context",
              "Consider increasing snippet size"⟩]
          else []
      | _ => []
    let doiWarns : List ValidationWarning :=
      if hasField fields "has_doi" then []
      else [⟨"has_doi", "Missing optional field has_doi",
        "Run citation detection to populate this field"⟩]
    let errors := missing ++ typeErrs ++ rangeErrs
    let warnings := emptyTermsWarns ++ snippetWarns ++ doiWarns
    ⟨errors.isEmpty, errors, warnings⟩
  | v => ⟨false, [⟨"", "File must be an object", some v⟩], []⟩

/-! ## Spec-side definitions

Definitions following the specification's words, to be compared with the
source-side functions above. -/

/-- The aliases of the concept named `n`, across all three tiers. -/
def conceptAliases (n : String) : List String :=
  match allConcepts.lookup n with
  | some c => c.aliases
  | none =>
    match INTERVENTIONS.lookup n with
    | some iv => iv.aliases
    | none => []

/-- The concrete examples of the concept named `n` (non-empty only for the
intervention tier). -/
def conceptExamples (n : String) : List String :=
  match allConcepts.lookup n with
  | some _ => []
  | none =>
    match INTERVENTIONS.lookup n with
    | some iv => iv.examples
    | none => []

/-- The weight of the concept named `n`. -/
def conceptWeight (n : String) : ℚ :=
  match allConcepts.lookup n with
  | some c => c.weight
  | none =>
    match INTERVENTIONS.lookup n with
    | some iv => iv.weight
    | none => 0

/-- Occurrence count over the ALIASES of `n` only (the quantity claim C2
names): case-insensitive, word-boundary-anchored, non-overlapping. -/
def aliasOccurrences (n t : String) : ℕ :=
  ((conceptAliases n).map (fun a => countAlias a t)).sum

/-- Occurrence count over the intervention EXAMPLES of `n`. -/
def exampleOccurrences (n t : String) : ℕ :=
  ((conceptExamples n).map (fun a => countAlias a t)).sum

/-- The full per-concept occurrence count the source accumulates. -/
def totalOccurrences (n t : String) : ℕ :=
  aliasOccurrences n t + exampleOccurrences n t

/-- Rounding to two decimals with halves away from zero (the convention the
spec documents for test reproducibility). -/
def roundAway2 (q : ℚ) : ℚ :=
  if 0 ≤ q then ((⌊100 * q + 1 / 2⌋ : ℤ) : ℚ) / 100
  else -(((⌊100 * (-q) + 1 / 2⌋ : ℤ) : ℚ) / 100)

/-- The spec's confidence formula: base score is the mean of the hit values
clamped to `[0,1]` (0 when empty); `min(base + citationBonus + docTypeBonus,
1)`, rounded to 2 decimal places, half away from zero. -/
def confidenceSpec (hits : List (String × ℚ)) (cit : CitationSignals)
    (dt : DocType) : ℚ :=
  let vals := hits.map Prod.snd
  let base : ℚ :=
    if vals.length > 0 then max 0 (min (vals.sum / vals.length) 1) else 0
  let citationBonus : ℚ :=
    (if cit.has_doi then (0.15 : ℚ) else 0) +
      (if cit.has_pmid then (0.15 : ℚ) else 0) +
      (if cit.has_arxiv then (0.10 : ℚ) else 0)
  roundAway2 (min (base + citationBonus + docTypeBonus dt) 1)

/-- A candidate type's score when its presence tally reaches `minMatches`,
and 0 otherwise. -/
def qualScore (dt : DocType) (t : String) : ℚ :=
  let cfg := DOC_TYPE_PATTERNS dt
  let m := docTally dt t
  if m ≥ cfg.minMatches then (m : ℚ) * cfg.weight else 0

/-- The spec's description of the classifier: the maximum qualifying score
wins, ties keep the first type in evaluation order, and if no type reaches
its threshold the result is `UNKNOWN`. -/
def classifySpec (t : String) : DocType :=
  if ((docTypesOrder.map fun dt => (dt, qualScore dt t)).map Prod.snd).foldl max 0 ≤ 0 then
    DocType.UNKNOWN
  else
    match (docTypesOrder.map fun dt => (dt, qualScore dt t)).find?
        (fun x => decide (x.2 =
          ((docTypesOrder.map fun dt => (dt, qualScore dt t)).map Prod.snd).foldl max 0)) with
    | some x => x.1
    | none => DocType.UNKNOWN

/-- `s` occurs in `t` as a YYYY-MM-DD-shaped token: ten characters of the
date shape, delimited by word boundaries on both sides (the neighbours, when
present, are non-word characters, since the token starts and ends with a
digit). -/
def DateToken (s t : String) : Prop :=
  isDateShape s.data = true ∧
    ∃ pre post : List Char, t.data = pre ++ s.data ++ post ∧
      isWordOpt pre.getLast? = false ∧ isWordOpt post.head? = false

/-! ## Concrete records for the validator claims -/

/-- A record with every required field well-typed, `confidence` in range and
`medical_terms_found` empty. -/
def emptyTermsRecord : JsVal := .obj [
  ("file_url", .str "https://example.org/a.pdf"),
  ("source", .str "Epstein Emails"),
  ("title", .str "a title"),
  ("medical_terms_found", .arr []),
  ("concept_hits", .obj []),
  ("confidence", .num 0.5),
  ("snippet", .str "a snippet that is comfortably over twenty characters"),
  ("doc_type", .str "UNKNOWN"),
  ("timestamp", .str "2017-12-19T00:00:00Z"),
  ("has_doi", .bool false)]

/-- The same record with the `confidence` field removed. -/
def noConfidenceRecord : JsVal := .obj [
  ("file_url", .str "https://example.org/a.pdf"),
  ("source", .str "Epstein Emails"),
  ("title", .str "a title"),
  ("medical_terms_found", .arr []),
  ("concept_hits", .obj []),
  ("snippet", .str "a snippet that is comfortably over twenty characters"),
  ("doc_type", .str "UNKNOWN"),
  ("timestamp", .str "2017-12-19T00:00:00Z"),
  ("has_doi", .bool false)]

/-- The same record with `confidence = 1.5`. -/
def outOfRangeRecord : JsVal := .obj [
  ("file_url", .str "https://example.org/a.pdf"),
  ("source", .str "Epstein Emails"),
  ("title", .str "a title"),
  ("medical_terms_found", .arr [.str "mitochondria"]),
  ("concept_hits", .obj []),
  ("confidence", .num 1.5),
  ("snippet", .str "a snippet that is comfortably over twenty characters"),
  ("doc_type", .str "UNKNOWN"),
  ("timestamp", .str "2017-12-19T00:00:00Z"),
  ("has_doi", .bool false)]

/-! ## Helper lemmas -/

/-- A first match exists exactly when the `g`-scan returns something. -/
theorem firstLen_isSome_iff (M : Matcher) :
    ∀ (cs : List Char) (fuel : Nat) (prev : Option Char), cs.length < fuel →
      ((firstLen M prev cs).isSome ↔ scanAux M fuel prev cs ≠ []) := by
  intro cs
  induction cs with
  | nil =>
    intro fuel prev hf
    match fuel, hf with
    | fuel + 1, _ =>
      simp only [firstLen, scanAux]
      cases hM : M prev [] with
      | none => simp
      | some L => cases L <;> simp
  | cons c rest ih =>
    intro fuel prev hf
    match fuel, hf with
    | fuel + 1, hf =>
      simp only [firstLen, scanAux]
      cases hM : M prev (c :: rest) with
      | none =>
        simpa using ih fuel (some c) (Nat.lt_of_succ_lt_succ hf)
      | some L => cases L <;> simp

/-- `.test` of a fresh regex is positivity of the match count. -/
theorem testM_iff_count (M : Matcher) (t : String) :
    testM M t = true ↔ 0 < countM M t := by
  have h := firstLen_isSome_iff M t.data (t.data.length + 1) none (Nat.lt_succ_self _)
  unfold testM countM scanM
  rw [List.length_pos]
  exact h

/-- Specialization to one alias. -/
theorem testAlias_iff_count (a t : String) :
    testAlias a t = true ↔ 0 < countAlias a t :=
  testM_iff_count (litB a.data) t

/-- The lookup of a primary/secondary concept by its own key. -/
theorem lookup_allConcepts :
    ∀ p ∈ allConcepts,
      allConcepts.lookup p.1 = some p.2 ∧ INTERVENTIONS.lookup p.1 = none := by
  decide

/-- The lookup of an intervention by its own key. -/
theorem lookup_interventions :
    ∀ p ∈ INTERVENTIONS,
      allConcepts.lookup p.1 = none ∧ INTERVENTIONS.lookup p.1 = some p.2 := by
  decide

/-- Every taxonomy weight is at least 0.68 (the PROTEIN_FOLDING weight). -/
theorem weights_lb :
    (∀ p ∈ allConcepts, 17 / 25 ≤ p.2.weight) ∧
      (∀ p ∈ INTERVENTIONS, 17 / 25 ≤ p.2.weight) := by
  decide

/-- A primary/secondary concept with a positive count appears in the hits. -/
theorem mem_hits_concept {t : String} {p : String × MedicalConcept}
    (hp : p ∈ allConcepts) (hc : 0 < conceptCount p.2 t) :
    (p.1, (conceptCount p.2 t : ℚ) * p.2.weight) ∈ scoreConceptHits t := by
  unfold scoreConceptHits
  exact List.mem_append_left _ (List.mem_filterMap.mpr ⟨p, hp, by simp [hc]⟩)

/-- An intervention with a positive count appears in the hits. -/
theorem mem_hits_intervention {t : String} {p : String × Intervention}
    (hp : p ∈ INTERVENTIONS) (hc : 0 < interventionCount p.2 t) :
    (p.1, (interventionCount p.2 t : ℚ) * p.2.weight) ∈ scoreConceptHits t := by
  unfold scoreConceptHits
  exact List.mem_append_right _ (List.mem_filterMap.mpr ⟨p, hp, by simp [hc]⟩)

/-- Characterization of a hit entry: its value is the full occurrence count
(aliases, plus examples for interventions) times the concept's weight, the
count is positive, and the weight is at least 0.68. -/
theorem hits_mem_char {t n : String} {v : ℚ} (h : (n, v) ∈ scoreConceptHits t) :
    0 < totalOccurrences n t ∧
      v = (totalOccurrences n t : ℚ) * conceptWeight n ∧
      17 / 25 ≤ conceptWeight n := by
  unfold scoreConceptHits at h
  rcases List.mem_append.mp h with h | h
  · obtain ⟨p, hp, heq⟩ := List.mem_filterMap.mp h
    by_cases hcnt : 0 < conceptCount p.2 t
    · simp only [hcnt, if_pos, gt_iff_lt, Option.some.injEq, Prod.mk.injEq] at heq
      obtain ⟨hn, hv⟩ := heq
      obtain ⟨hl1, hl2⟩ := lookup_allConcepts p hp
      subst hn
      have hali : conceptAliases p.1 = p.2.aliases := by
        unfold conceptAliases; rw [hl1]
      have hex : conceptExamples p.1 = [] := by
        unfold conceptExamples; rw [hl1]
      have hw : conceptWeight p.1 = p.2.weight := by
        unfold conceptWeight; rw [hl1]
      have htot : totalOccurrences p.1 t = conceptCount p.2 t := by
        unfold totalOccurrences aliasOccurrences exampleOccurrences
        rw [hali, hex]
        simp [conceptCount]
      refine ⟨htot ▸ hcnt, ?_, hw ▸ weights_lb.1 p hp⟩
      rw [htot, hw, ← hv]
    · simp [hcnt] at heq
  · obtain ⟨p, hp, heq⟩ := List.mem_filterMap.mp h
    by_cases hcnt : 0 < interventionCount p.2 t
    · simp only [hcnt, if_pos, gt_iff_lt, Option.some.injEq, Prod.mk.injEq] at heq
      obtain ⟨hn, hv⟩ := heq
      obtain ⟨hl1, hl2⟩ := lookup_interventions p hp
      subst hn
      have hali : conceptAliases p.1 = p.2.aliases := by
        unfold conceptAliases; rw [hl1, hl2]
      have hex : conceptExamples p.1 = p.2.examples := by
        unfold conceptExamples; rw [hl1, hl2]
      have hw : conceptWeight p.1 = p.2.weight := by
        unfold conceptWeight; rw [hl1, hl2]
      have htot : totalOccurrences p.1 t = interventionCount p.2 t := by
        unfold totalOccurrences aliasOccurrences exampleOccurrences
        rw [hali, hex]
        simp [interventionCount, conceptCount]
      refine ⟨htot ▸ hcnt, ?_, hw ▸ weights_lb.2 p hp⟩
      rw [htot, hw, ← hv]
    · simp [hcnt] at heq

/-- Membership after the dedupe-folds of `extractMedicalTerms`. -/
theorem mem_foldl_push {α : Type} (g : α → Bool) (nm : α → String) :
    ∀ (l : List α) (acc : List String) (s : String),
      s ∈ l.foldl (fun acc p => if g p then pushUnique acc (nm p) else acc) acc →
      s ∈ acc ∨ ∃ p ∈ l, g p = true ∧ s = nm p := by
  intro l
  induction l with
  | nil => intro acc s h; exact Or.inl h
  | cons x xs ih =>
    intro acc s h
    simp only [List.foldl_cons] at h
    rcases ih _ s h with h' | ⟨p, hp, hg, rfl⟩
    · by_cases hx : g x
      · rw [if_pos hx] at h'
        unfold pushUnique at h'
        by_cases hmem : nm x ∈ acc
        · rw [if_pos hmem] at h'
          exact Or.inl h'
        · rw [if_neg hmem] at h'
          rcases List.mem_append.mp h' with h'' | h''
          · exact Or.inl h''
          · exact Or.inr ⟨x, List.mem_cons_self .., hx,
              by simpa using h''⟩
      · rw [if_neg hx] at h'
        exact Or.inl h'
    · exact Or.inr ⟨p, List.mem_cons_of_mem _ hp, hg, rfl⟩

/-- The dedupe-fold preserves membership of the accumulator. -/
theorem mem_foldl_push_of_mem {α : Type} (g : α → Bool) (nm : α → String) :
    ∀ (l : List α) (acc : List String) (s : String), s ∈ acc →
      s ∈ l.foldl (fun acc p => if g p then pushUnique acc (nm p) else acc) acc := by
  intro l
  induction l with
  | nil => intro acc s h; exact h
  | cons x xs ih =>
    intro acc s h
    simp only [List.foldl_cons]
    apply ih
    by_cases hx : g x
    · rw [if_pos hx]
      unfold pushUnique
      split
      · exact h
      · exact List.mem_append_left _ h
    · rw [if_neg hx]
      exact h

/-- An element whose condition holds lands in the dedupe-fold. -/
theorem mem_foldl_push_self {α : Type} (g : α → Bool) (nm : α → String) :
    ∀ (l : List α) (acc : List String) (p : α), p ∈ l → g p = true →
      nm p ∈ l.foldl (fun acc p => if g p then pushUnique acc (nm p) else acc) acc := by
  intro l
  induction l with
  | nil => intro acc p h; cases h
  | cons x xs ih =>
    intro acc p hp hg
    rcases List.mem_cons.mp hp with rfl | hp'
    · simp only [List.foldl_cons, if_pos hg]
      apply mem_foldl_push_of_mem
      unfold pushUnique
      split
      · assumption
      · exact List.mem_append_right _ (List.mem_singleton.mpr rfl)
    · simp only [List.foldl_cons]
      exact ih _ p hp' hg

/-- Sum lower bound from a pointwise bound. -/
theorem mul_length_le_sum (c : ℚ) :
    ∀ (l : List ℚ), (∀ x ∈ l, c ≤ x) → c * l.length ≤ l.sum := by
  intro l
  induction l with
  | nil => simp
  | cons x xs ih =>
    intro h
    have hx := h x (List.mem_cons_self ..)
    have hxs := ih (fun y hy => h y (List.mem_cons_of_mem _ hy))
    simp only [List.sum_cons, List.length_cons]
    have : c * ((xs.length : ℚ) + 1) = c * xs.length + c := by ring
    push_cast
    linarith

/-- A `g`-flag `test` on the empty string fails from every `lastIndex` (for a
matcher that does not match at the empty suffix). -/
theorem gTestM_nil (M : Matcher) (li : Nat) (h : M none [] = none) :
    gTestM M "" li = (false, 0) := by
  unfold gTestM
  simp only [show ("" : String).data = [] from rfl, List.take_nil, List.drop_nil,
    List.getLast?_nil, List.length_nil]
  rw [show firstLen M none [] = none from by simp [firstLen, h]]
  split <;> rfl

/-! ## Claims -/

/-- C1 (code_bug): two successive `analyze` calls on the same detector and
the same text are NOT identical, because the module-level `CITATION_PATTERNS`
regexes carry the `g` flag and `RegExp.prototype.test` advances their shared
`lastIndex`.  On the text "10.1234/abc" the first call reports `has_doi =
true`, the second `has_doi = false` (the resumed search starts past the only
match); `detectCitations` itself shows the same flip. -/
theorem analyze_second_call_differs :
    (analyzeSt CitState.init "10.1234/abc").1.citations.has_doi = true ∧
    ((analyzeSt (analyzeSt CitState.init "10.1234/abc").2 "10.1234/abc").1.citations.has_doi
      = false) ∧
    (detectCitationsSt CitState.init "10.1234/abc").1.has_doi = true ∧
    ((detectCitationsSt (detectCitationsSt CitState.init "10.1234/abc").2
      "10.1234/abc").1.has_doi = false) ∧
    (analyzeSt CitState.init "10.1234/abc").1 ≠
      (analyzeSt (analyzeSt CitState.init "10.1234/abc").2 "10.1234/abc").1 := by
  decide

/-- C3, counterexample: the escaped alias pattern `\bNAD\+\b` matches the
text "NAD+" ZERO times, not once — after the literal `+` (a non-word
character) at the end of the input there is no word boundary. -/
theorem nad_plus_alias_zero_matches : countAlias "NAD+" "NAD+" = 0 := by
  decide

/-- C3 (amended): analyzing "NAD+" hits the NAD_METABOLISM concept with a
total occurrence count of exactly one — the occurrence is contributed by the
alias "NAD" (the escaped alias "NAD+" itself contributes none on this text,
though it does match when a word character follows, e.g. in "NAD+x", showing
`+` is treated as a literal, not a quantifier). -/
theorem nad_plus_concept_once :
    scoreConceptHits "NAD+" = [("NAD_METABOLISM", (0.98 : ℚ))] ∧
    totalOccurrences "NAD_METABOLISM" "NAD+" = 1 ∧
    countAlias "NAD" "NAD+" = 1 ∧
    countAlias "NAD+" "NAD+x" = 1 := by
  decide

/-- C2, counterexample: `scoreConceptHits "fasting"` contains the key
CALORIC_RESTRICTION with value 0.78 although the text contains ZERO
occurrences of any of that concept's aliases (the hit comes from the
intervention example "fasting"), so the value is not the alias-occurrence
count times the weight, and a concept with zero alias occurrences is not
absent. -/
theorem example_hits_without_alias :
    ("CALORIC_RESTRICTION", (0.78 : ℚ)) ∈ scoreConceptHits "fasting" ∧
    aliasOccurrences "CALORIC_RESTRICTION" "fasting" = 0 ∧
    (0.78 : ℚ) ≠
      (aliasOccurrences "CALORIC_RESTRICTION" "fasting" : ℚ) *
        conceptWeight "CALORIC_RESTRICTION" := by
  decide

/-- C5, counterexample: the text "mitochondria and energy drink" contains
the word "mitochondria" (one word-boundary occurrence) and the noise phrase
"energy drink", yet `analyze` returns EMPTY `medicalTerms` and confidence 0
(while `isNoise = true`): "mitochondria" is not an alias of the MITOCHONDRIA
concept — only "mitochondrial", "mitochondrion", etc. are. -/
theorem mitochondria_word_no_hit :
    countM (litB "mitochondria".data) "mitochondria and energy drink" = 1 ∧
    testM noiseEnergyDrink "mitochondria and energy drink" = true ∧
    (analyze "mitochondria and energy drink").medicalTerms = [] ∧
    (analyze "mitochondria and energy drink").confidence = 0 ∧
    (analyze "mitochondria and energy drink").isNoise = true := by
  decide

/-- C7: a record missing `confidence` yields errors (so `valid = false`); a
record with `confidence = 1.5` yields the out-of-range confidence error; a
record whose `medical_terms_found` is `[]` gets the empty-terms warning and
that warning alone leaves `valid = true`. -/
theorem validateFile_claims :
    (validateFile noConfidenceRecord).valid = false ∧
    (validateFile noConfidenceRecord).errors.isEmpty = false ∧
    ((validateFile noConfidenceRecord).errors.any
      (fun e => e.path == "confidence")) = true ∧
    ((validateFile outOfRangeRecord).errors.any (fun e =>
      e.path == "confidence" &&
        e.message == "Confidence must be between 0 and 1")) = true ∧
    (validateFile emptyTermsRecord).valid = true ∧
    ((validateFile emptyTermsRecord).warnings.any
      (fun w => w.path == "medical_terms_found")) = true := by
  decide

/-- C8: `analyze` is a total function of its input text (the embedding is a
total Lean function: no sub-scorer can throw), and on the empty string — from
ANY citation-regex state, so on every successive call as well — it reports no
matches at all: empty `medicalTerms`, empty `conceptHits`, all citation flags
false, docType UNKNOWN, no dates, confidence 0 and `isNoise = false`. -/
theorem analyze_empty_text (st : CitState) :
    (analyzeSt st "").1 =
      ⟨[], [], ⟨false, false, false⟩, .UNKNOWN, [], 0, false⟩ := by
  have h1 := gTestM_nil doiM st.doiLI (by decide)
  have h2 := gTestM_nil doiUrlM st.doiUrlLI (by decide)
  have h3 := gTestM_nil pmidM st.pmidLI (by decide)
  have h4 := gTestM_nil arxivM st.arxivLI (by decide)
  simp only [analyzeSt, detectCitationsSt, h1, h2, h3, h4]
  norm_num
  decide

/-- C2 (amended): a present hit value equals the concept's FULL occurrence
count — across its aliases, and, for interventions, its concrete examples as
well — times its weight, and is strictly positive; concepts whose full count
is zero are absent (the contrapositive of the first conjunct).  The
amendment: the original claim counted aliases only, but intervention
examples also feed the count (see the counterexample). -/
theorem scoreConceptHits_value_spec (t n : String) (v : ℚ)
    (h : (n, v) ∈ scoreConceptHits t) :
    0 < totalOccurrences n t ∧
      v = (totalOccurrences n t : ℚ) * conceptWeight n ∧ 0 < v := by
  obtain ⟨h1, h2, h3⟩ := hits_mem_char h
  refine ⟨h1, h2, ?_⟩
  rw [h2]
  have hw : 0 < conceptWeight n := lt_of_lt_of_le (by norm_num) h3
  have hc : (0 : ℚ) < (totalOccurrences n t : ℚ) := by
    exact_mod_cast h1
  exact mul_pos hc hw

/-- Witness for C2's theorem at the concrete text "fasting". -/
theorem scoreConceptHits_value_spec_witness :
    0 < totalOccurrences "CALORIC_RESTRICTION" "fasting" ∧
      (0.78 : ℚ) = (totalOccurrences "CALORIC_RESTRICTION" "fasting" : ℚ) *
        conceptWeight "CALORIC_RESTRICTION" ∧ 0 < (0.78 : ℚ) :=
  scoreConceptHits_value_spec "fasting" "CALORIC_RESTRICTION" 0.78 (by decide)

/-- C10: every name in `extractMedicalTerms t` is the lowercasing of a key
present in `scoreConceptHits t` — an alias match that puts a concept into
`medicalTerms` always also produces a (positive) weighted entry in
`conceptHits`. -/
theorem extractMedicalTerms_subset_hits (t s : String)
    (h : s ∈ extractMedicalTerms t) :
    ∃ n v, (n, v) ∈ scoreConceptHits t ∧ s = jsToLower n := by
  unfold extractMedicalTerms at h
  rcases mem_foldl_push _ _ INTERVENTIONS _ s h with h1 | ⟨p, hp, hg, rfl⟩
  · rcases mem_foldl_push _ _ allConcepts [] s h1 with h2 | ⟨p, hp, hg, rfl⟩
    · cases h2
    · obtain ⟨a, ha, hta⟩ := List.any_eq_true.mp hg
      have hca : 0 < countAlias a t := (testAlias_iff_count a t).mp hta
      have hcc : 0 < conceptCount p.2 t :=
        lt_of_lt_of_le hca
          (List.single_le_sum (by simp) _ (List.mem_map.mpr ⟨a, ha, rfl⟩))
      exact ⟨p.1, _, mem_hits_concept hp hcc, rfl⟩
  · obtain ⟨a, ha, hta⟩ := List.any_eq_true.mp hg
    have hca : 0 < countAlias a t := (testAlias_iff_count a t).mp hta
    have hcc : 0 < conceptCount p.2.toMedicalConcept t :=
      lt_of_lt_of_le hca
        (List.single_le_sum (by simp) _ (List.mem_map.mpr ⟨a, ha, rfl⟩))
    have hic : 0 < interventionCount p.2 t :=
      lt_of_lt_of_le hcc (Nat.le_add_right _ _)
    exact ⟨p.1, _, mem_hits_intervention hp hic, rfl⟩

/-- Witness for C10's theorem: "sirtuin" puts `nad_metabolism` into the
terms, and NAD_METABOLISM is indeed a key of the hit map. -/
theorem extractMedicalTerms_subset_hits_witness :
    ∃ n v, (n, v) ∈ scoreConceptHits "sirtuin" ∧ "nad_metabolism" = jsToLower n :=
  extractMedicalTerms_subset_hits "sirtuin" "nad_metabolism" (by decide)

/-- C5 (amended): for any text containing the word "mitochondrial" (an
actual MITOCHONDRIA alias; the original claim's "mitochondria" is not one)
together with the noise phrase "energy drink", `analyze` — from any citation
state — returns a non-empty `medicalTerms` list and a strictly positive
confidence while simultaneously reporting `isNoise = true`: the noise flag
does not zero out hits or confidence inside `analyze`. -/
theorem noise_independence (st : CitState) (t : String)
    (hmito : 0 < countAlias "mitochondrial" t)
    (hnoise : testM noiseEnergyDrink t = true) :
    (analyzeSt st t).1.medicalTerms ≠ [] ∧
      0 < (analyzeSt st t).1.confidence ∧
      (analyzeSt st t).1.isNoise = true := by
  have e1 : (analyzeSt st t).1.medicalTerms = extractMedicalTerms t := rfl
  have e2 : (analyzeSt st t).1.confidence =
      calculateConfidence (scoreConceptHits t) (detectCitationsSt st t).1
        (classifyDocument t) := rfl
  have e3 : (analyzeSt st t).1.isNoise = isNoise t := rfl
  have htest : testAlias "mitochondrial" t = true :=
    (testAlias_iff_count _ _).mpr hmito
  have hmitoPair : ("MITOCHONDRIA", (⟨"MITOCHONDRIA",
      ["mitochondrial", "mitochondrion", "OXPHOS", "ATP", "electron transport"],
      ["energy", "cellular respiration", "Complex I", "Complex IV"],
      1.0⟩ : MedicalConcept)) ∈ allConcepts := by decide
  have hcc : 0 < conceptCount (⟨"MITOCHONDRIA",
      ["mitochondrial", "mitochondrion", "OXPHOS", "ATP", "electron transport"],
      ["energy", "cellular respiration", "Complex I", "Complex IV"],
      1.0⟩ : MedicalConcept) t := by
    refine lt_of_lt_of_le hmito (List.single_le_sum (by simp) _ ?_)
    exact List.mem_map.mpr ⟨"mitochondrial", by decide, rfl⟩
  refine ⟨?_, ?_, ?_⟩
  · rw [e1]
    unfold extractMedicalTerms
    apply List.ne_nil_of_mem
    apply mem_foldl_push_of_mem
    apply mem_foldl_push_self _ _ allConcepts [] _ hmitoPair
    refine List.any_eq_true.mpr ⟨"mitochondrial", by decide, htest⟩
  · rw [e2]
    have hmem := mem_hits_concept hmitoPair hcc
    have hne : scoreConceptHits t ≠ [] := List.ne_nil_of_mem hmem
    have hvals : ∀ v ∈ (scoreConceptHits t).map Prod.snd, (17 / 25 : ℚ) ≤ v := by
      intro v hv
      obtain ⟨⟨n, v'⟩, hmemv, rfl⟩ := List.mem_map.mp hv
      obtain ⟨h1, h2, h3⟩ := hits_mem_char hmemv
      rw [h2]
      have hk : (1 : ℚ) ≤ (totalOccurrences n t : ℚ) := by exact_mod_cast h1
      calc (17 / 25 : ℚ) ≤ conceptWeight n := h3
        _ ≤ (totalOccurrences n t : ℚ) * conceptWeight n :=
          le_mul_of_one_le_left (by linarith) hk
    set vals := (scoreConceptHits t).map Prod.snd with hvalsdef
    have hlen : 0 < vals.length := by
      simpa [hvalsdef, List.length_pos] using hne
    have hlenq : (0 : ℚ) < (vals.length : ℚ) := by exact_mod_cast hlen
    have hsum : (17 / 25 : ℚ) * vals.length ≤ vals.sum :=
      mul_length_le_sum _ _ hvals
    have hdiv : (17 / 25 : ℚ) ≤ vals.sum / vals.length :=
      (le_div_iff₀ hlenq).mpr hsum
    have hbase : (17 / 25 : ℚ) ≤ min (vals.sum / vals.length) 1 :=
      le_min hdiv (by norm_num)
    have hcb : (0 : ℚ) ≤
        (if (detectCitationsSt st t).1.has_doi then (0.15 : ℚ) else 0) +
          (if (detectCitationsSt st t).1.has_pmid then (0.15 : ℚ) else 0) +
          (if (detectCitationsSt st t).1.has_arxiv then (0.10 : ℚ) else 0) := by
      split_ifs <;> norm_num
    have hdb : (0 : ℚ) ≤ docTypeBonus (classifyDocument t) := by
      cases classifyDocument t <;> norm_num [docTypeBonus]
    simp only [calculateConfidence, ← hvalsdef, if_pos hlen]
    set pre := min (min (vals.sum / vals.length) 1 +
      ((if (detectCitationsSt st t).1.has_doi then (0.15 : ℚ) else 0) +
        (if (detectCitationsSt st t).1.has_pmid then (0.15 : ℚ) else 0) +
        (if (detectCitationsSt st t).1.has_arxiv then (0.10 : ℚ) else 0)) +
      docTypeBonus (classifyDocument t)) 1 with hpredef
    have hpre : (17 / 25 : ℚ) ≤ pre := by
      rw [hpredef]
      exact le_min (by linarith) (by norm_num)
    have hfl : (68 : ℤ) ≤ jsRound (pre * 100) := by
      unfold jsRound
      refine Int.le_floor.mpr ?_
      push_cast
      linarith
    have hflq : (0 : ℚ) < (jsRound (pre * 100) : ℚ) := by
      have : (0 : ℤ) < jsRound (pre * 100) := by linarith
      exact_mod_cast this
    exact div_pos hflq (by norm_num)
  · rw [e3]
    unfold isNoise NOISE_PATTERNS
    simp [hnoise]

/-! ### Date extraction: exactness machinery -/

/-- Digits are word characters. -/
theorem digit_word {c : Char} (h : c.isDigit = true) : wordChar c = true := by
  simp [wordChar, Char.isAlphanum, h]

/-- A shaped list is exactly ten characters of the date pattern. -/
theorem shape_exists {l : List Char} (h : isDateShape l = true) :
    ∃ a b c d e f g hh i j, l = [a, b, c, d, e, f, g, hh, i, j] ∧
      a.isDigit = true ∧ b.isDigit = true ∧ c.isDigit = true ∧ d.isDigit = true ∧
      e = '-' ∧ f.isDigit = true ∧ g.isDigit = true ∧ hh = '-' ∧
      i.isDigit = true ∧ j.isDigit = true := by
  unfold isDateShape at h
  split at h
  next a b c d e f g hh i j =>
    simp only [Bool.and_eq_true, beq_iff_eq] at h
    exact ⟨a, b, c, d, e, f, g, hh, i, j, rfl,
      h.1.1.1.1.1.1.1.1.1, h.1.1.1.1.1.1.1.1.2, h.1.1.1.1.1.1.1.2,
      h.1.1.1.1.1.1.2, h.1.1.1.1.1.2, h.1.1.1.1.2, h.1.1.1.2, h.1.1.2,
      h.1.2, h.2⟩
  next => exact absurd h (by simp)

/-- A shaped list has length ten. -/
theorem shape_length {l : List Char} (h : isDateShape l = true) : l.length = 10 := by
  obtain ⟨a, b, c, d, e, f, g, hh, i, j, rfl, -⟩ := shape_exists h
  rfl

/-- The character standing right before the suffix that follows `pre`. -/
def lastOr (prev : Option Char) (pre : List Char) : Option Char :=
  match pre.getLast? with
  | some c => some c
  | none => prev

theorem lastOr_none (pre : List Char) : lastOr none pre = pre.getLast? := by
  unfold lastOr
  cases pre.getLast? <;> rfl

theorem isWordOpt_some (c : Char) : isWordOpt (some c) = wordChar c := rfl

theorem lastOr_cons (prev : Option Char) (c : Char) (pre : List Char) :
    lastOr prev (c :: pre) = lastOr (some c) pre := by
  unfold lastOr
  cases pre with
  | nil => rfl
  | cons d l =>
    rw [List.getLast?_cons_cons]
    cases h : (d :: l).getLast? with
    | none => exact absurd (List.getLast?_eq_none_iff.mp h) (by simp)
    | some x => rfl

theorem lastOr_append (l pre : List Char) (h : l ≠ []) (prev : Option Char) :
    lastOr prev (l ++ pre) = lastOr l.getLast? pre := by
  unfold lastOr
  cases hpre : pre with
  | nil =>
    simp only [List.append_nil, List.getLast?_nil]
    cases hl : l.getLast? with
    | none => exact absurd (List.getLast?_eq_none_iff.mp hl) h
    | some c => rfl
  | cons d dl =>
    rw [List.getLast?_append_of_ne_nil _ (by simp)]
    cases hl : (d :: dl).getLast? with
    | none => exact absurd (List.getLast?_eq_none_iff.mp hl) (by simp)
    | some x => rfl

/-- A YYYY-MM-DD-shaped token occurring at a word boundary inside `cs`,
where `prev` is the character just before `cs`. -/
def DateOcc (prev : Option Char) (cs tok : List Char) : Prop :=
  isDateShape tok = true ∧
    ∃ pre post, cs = pre ++ tok ++ post ∧
      isWordOpt (lastOr prev pre) = false ∧ isWordOpt post.head? = false

/-- Inversion of a date match. -/
theorem dateM_inv {prev : Option Char} {cs : List Char} {L : Nat}
    (h : dateM prev cs = some L) :
    L = 10 ∧ isDateShape (cs.take 10) = true ∧ boundaryB prev cs.head? = true ∧
      boundaryB ((cs.take 10).getLast?) ((cs.drop 10).head?) = true := by
  unfold dateM at h
  split_ifs at h with hc
  · simp only [Bool.and_eq_true] at hc
    cases h
    exact ⟨rfl, hc.1.1, hc.1.2, hc.2⟩

/-- A shaped, boundary-delimited token at the very head of the input is a
date match. -/
theorem dateM_of_head {prev : Option Char} {tok post : List Char}
    (hsh : isDateShape tok = true) (hprev : isWordOpt prev = false)
    (hpost : isWordOpt post.head? = false) :
    dateM prev (tok ++ post) = some 10 := by
  have hlen : tok.length = 10 := shape_length hsh
  obtain ⟨a, b, c, d, e, f, g, hh, i, j, htok, ha, -, -, -, -, -, -, -, -, hj⟩ :=
    shape_exists hsh
  subst htok
  unfold dateM
  rw [List.take_left' hlen, List.drop_left' hlen]
  have h1 : boundaryB prev (some a) = true := by
    simp only [boundaryB, hprev, isWordOpt_some, digit_word ha]
    rfl
  have h2 : boundaryB (some j) post.head? = true := by
    simp only [boundaryB, hpost, isWordOpt_some, digit_word hj]
    rfl
  simp [hsh, h1, h2]

/-- No shaped, boundary-delimited token can start strictly inside a date
match: the dashes (or the match's trailing boundary) collide with the
token's digit positions. -/
theorem no_overlap {prev : Option Char} {pre tok post : List Char}
    (hM : dateM prev (pre ++ tok ++ post) = some 10)
    (hsh : isDateShape tok = true)
    (hlow : 1 ≤ pre.length) (hhigh : pre.length ≤ 9) : False := by
  obtain ⟨-, hsh0, -, hbend⟩ := dateM_inv hM
  obtain ⟨a, b, c, d, e, f, g, hh, i, j, htok, ha, hb, hc, hd, he, hf, hg, hhh, hi, hj⟩ :=
    shape_exists hsh
  subst htok
  clear hM hsh
  cases pre with
  | nil => simp at hlow
  | cons p1 pre =>
    cases pre with
    | nil =>
      simp only [List.cons_append, List.nil_append] at hsh0 hbend
      rw [show (p1 :: (a :: b :: c :: d :: e :: f :: g :: hh :: i :: j :: post)).take 10 = [p1, a, b, c, d, e, f, g, hh, i] from rfl] at hsh0
      simp only [isDateShape, Bool.and_eq_true, beq_iff_eq] at hsh0
      rw [hsh0.1.1.1.1.1.2] at hd
      exact absurd hd (by decide)
    | cons p2 pre =>
      cases pre with
      | nil =>
        simp only [List.cons_append, List.nil_append] at hsh0 hbend
        rw [show (p1 :: p2 :: (a :: b :: c :: d :: e :: f :: g :: hh :: i :: j :: post)).take 10 = [p1, p2, a, b, c, d, e, f, g, hh] from rfl] at hsh0
        simp only [isDateShape, Bool.and_eq_true, beq_iff_eq] at hsh0
        rw [hsh0.1.1.1.1.1.2] at hc
        exact absurd hc (by decide)
      | cons p3 pre =>
        cases pre with
        | nil =>
          simp only [List.cons_append, List.nil_append] at hsh0 hbend
          rw [show (p1 :: p2 :: p3 :: (a :: b :: c :: d :: e :: f :: g :: hh :: i :: j :: post)).take 10 = [p1, p2, p3, a, b, c, d, e, f, g] from rfl] at hsh0
          simp only [isDateShape, Bool.and_eq_true, beq_iff_eq] at hsh0
          rw [hsh0.1.1.1.1.1.2] at hb
          exact absurd hb (by decide)
        | cons p4 pre =>
          cases pre with
          | nil =>
            simp only [List.cons_append, List.nil_append] at hsh0 hbend
            rw [show (p1 :: p2 :: p3 :: p4 :: (a :: b :: c :: d :: e :: f :: g :: hh :: i :: j :: post)).take 10 = [p1, p2, p3, p4, a, b, c, d, e, f] from rfl] at hsh0
            simp only [isDateShape, Bool.and_eq_true, beq_iff_eq] at hsh0
            rw [hsh0.1.1.1.1.1.2] at ha
            exact absurd ha (by decide)
          | cons p5 pre =>
            cases pre with
            | nil =>
              simp only [List.cons_append, List.nil_append] at hsh0 hbend
              rw [show (p1 :: p2 :: p3 :: p4 :: p5 :: (a :: b :: c :: d :: e :: f :: g :: hh :: i :: j :: post)).take 10 = [p1, p2, p3, p4, p5, a, b, c, d, e] from rfl] at hsh0
              simp only [isDateShape, Bool.and_eq_true, beq_iff_eq] at hsh0
              rw [hsh0.1.1.2] at hc
              exact absurd hc (by decide)
            | cons p6 pre =>
              cases pre with
              | nil =>
                simp only [List.cons_append, List.nil_append] at hsh0 hbend
                rw [show (p1 :: p2 :: p3 :: p4 :: p5 :: p6 :: (a :: b :: c :: d :: e :: f :: g :: hh :: i :: j :: post)).take 10 = [p1, p2, p3, p4, p5, p6, a, b, c, d] from rfl] at hsh0
                simp only [isDateShape, Bool.and_eq_true, beq_iff_eq] at hsh0
                rw [hsh0.1.1.2] at hb
                exact absurd hb (by decide)
              | cons p7 pre =>
                cases pre with
                | nil =>
                  simp only [List.cons_append, List.nil_append] at hsh0 hbend
                  rw [show (p1 :: p2 :: p3 :: p4 :: p5 :: p6 :: p7 :: (a :: b :: c :: d :: e :: f :: g :: hh :: i :: j :: post)).take 10 = [p1, p2, p3, p4, p5, p6, p7, a, b, c] from rfl] at hsh0
                  simp only [isDateShape, Bool.and_eq_true, beq_iff_eq] at hsh0
                  rw [hsh0.1.1.2] at ha
                  exact absurd ha (by decide)
                | cons p8 pre =>
                  cases pre with
                  | nil =>
                    simp only [List.cons_append, List.nil_append] at hsh0 hbend
                    rw [show (p1 :: p2 :: p3 :: p4 :: p5 :: p6 :: p7 :: p8 :: (a :: b :: c :: d :: e :: f :: g :: hh :: i :: j :: post)).take 10 = [p1, p2, p3, p4, p5, p6, p7, p8, a, b] from rfl,
                      show (p1 :: p2 :: p3 :: p4 :: p5 :: p6 :: p7 :: p8 :: (a :: b :: c :: d :: e :: f :: g :: hh :: i :: j :: post)).drop 10 = c :: d :: e :: f :: g :: hh :: i :: j :: post from rfl] at hbend
                    rw [show ([p1, p2, p3, p4, p5, p6, p7, p8, a, b] : List Char).getLast? = some b from rfl] at hbend
                    simp only [List.head?_cons, boundaryB, isWordOpt_some, digit_word hb,
                      digit_word hc] at hbend
                    simp at hbend
                  | cons p9 pre =>
                    cases pre with
                    | nil =>
                      simp only [List.cons_append, List.nil_append] at hsh0 hbend
                      rw [show (p1 :: p2 :: p3 :: p4 :: p5 :: p6 :: p7 :: p8 :: p9 :: (a :: b :: c :: d :: e :: f :: g :: hh :: i :: j :: post)).take 10 = [p1, p2, p3, p4, p5, p6, p7, p8, p9, a] from rfl,
                        show (p1 :: p2 :: p3 :: p4 :: p5 :: p6 :: p7 :: p8 :: p9 :: (a :: b :: c :: d :: e :: f :: g :: hh :: i :: j :: post)).drop 10 = b :: c :: d :: e :: f :: g :: hh :: i :: j :: post from rfl] at hbend
                      rw [show ([p1, p2, p3, p4, p5, p6, p7, p8, p9, a] : List Char).getLast? = some a from rfl] at hbend
                      simp only [List.head?_cons, boundaryB, isWordOpt_some, digit_word ha,
                        digit_word hb] at hbend
                      simp at hbend
                    | cons p10 pre =>
                      simp only [List.length_cons] at hhigh
                      omega

/-- Scan unfolding on a date match. -/
theorem scanAux_succ_hit {prev : Option Char} {cs : List Char} {fuel : Nat}
    (hM : dateM prev cs = some 10) :
    scanAux dateM (fuel + 1) prev cs =
      cs.take 10 :: scanAux dateM fuel ((cs.take 10).getLast?) (cs.drop 10) := by
  have hM' : dateM prev cs = some (Nat.succ 9) := hM
  simp only [scanAux, hM']

/-- Scan unfolding on a failed match (non-empty input). -/
theorem scanAux_succ_miss {prev : Option Char} {c : Char} {rest : List Char}
    {fuel : Nat} (hM : dateM prev (c :: rest) = none) :
    scanAux dateM (fuel + 1) prev (c :: rest) = scanAux dateM fuel (some c) rest := by
  simp only [scanAux, hM]

/-- Scan unfolding at the end of input. -/
theorem scanAux_succ_nil {prev : Option Char} {fuel : Nat}
    (hM : dateM prev [] = none) : scanAux dateM (fuel + 1) prev [] = [] := by
  simp only [scanAux, hM]

/-- The head of an input whose first ten characters are shaped. -/
theorem head?_of_shape {cs : List Char} (h : isDateShape (cs.take 10) = true) :
    ∃ a, cs.head? = some a ∧ a.isDigit = true := by
  obtain ⟨a, b, c, d, e, f, g, hh, i, j, htake, ha, -⟩ := shape_exists h
  cases cs with
  | nil => simp at htake
  | cons x rest =>
    refine ⟨x, rfl, ?_⟩
    have : x = a := by
      have := htake
      rw [show (x :: rest).take 10 = x :: rest.take 9 from rfl] at this
      exact (List.cons.injEq .. ▸ this).1
    rw [this]
    exact ha

/-- Soundness of the date scan: everything returned is a shaped,
boundary-delimited occurrence. -/
theorem scan_sound : ∀ (fuel : Nat) (prev : Option Char) (cs : List Char),
    cs.length < fuel → ∀ m ∈ scanAux dateM fuel prev cs, DateOcc prev cs m := by
  intro fuel
  induction fuel with
  | zero => intro prev cs h; omega
  | succ fuel ih =>
    intro prev cs hlen m hm
    cases hM : dateM prev cs with
    | some L =>
      obtain ⟨hL10, hsh0, hbstart, hbend⟩ := dateM_inv hM
      subst hL10
      rw [scanAux_succ_hit hM] at hm
      have hlen10 : (cs.take 10).length = 10 := shape_length hsh0
      have htne : cs.take 10 ≠ [] := by
        intro habs
        rw [habs] at hlen10
        simp at hlen10
      rcases List.mem_cons.mp hm with rfl | hm'
      · refine ⟨hsh0, [], cs.drop 10, ?_, ?_, ?_⟩
        · rw [List.nil_append, List.take_append_drop]
        · obtain ⟨a, hhd, hadig⟩ := head?_of_shape hsh0
          rw [hhd] at hbstart
          unfold lastOr
          simp only [List.getLast?_nil]
          simp only [boundaryB, isWordOpt_some, digit_word hadig] at hbstart
          cases hw : isWordOpt prev
          · rfl
          · rw [hw] at hbstart
            simp at hbstart
        · obtain ⟨a, b, c, d, e, f, g, hh, i, j, htake, -, -, -, -, -, -, -, -, -, hj⟩ :=
            shape_exists hsh0
          rw [htake] at hbend
          rw [show ([a, b, c, d, e, f, g, hh, i, j] : List Char).getLast? = some j
            from rfl] at hbend
          simp only [boundaryB, isWordOpt_some, digit_word hj] at hbend
          cases hw : isWordOpt (cs.drop 10).head?
          · rfl
          · rw [hw] at hbend
            simp at hbend
      · have hdlen : (cs.drop 10).length < fuel := by
          rw [List.length_drop]
          have h10 : 10 ≤ cs.length := by
            have := List.length_take 10 cs
            omega
          omega
        obtain ⟨hshm, pre', post', heq', hpre', hpost'⟩ :=
          ih ((cs.take 10).getLast?) (cs.drop 10) hdlen m hm'
        refine ⟨hshm, cs.take 10 ++ pre', post', ?_, ?_, hpost'⟩
        · conv_lhs => rw [← List.take_append_drop 10 cs]
          rw [heq']
          simp [List.append_assoc]
        · rw [lastOr_append _ _ htne]
          exact hpre'
    | none =>
      cases cs with
      | nil =>
        rw [scanAux_succ_nil hM] at hm
        cases hm
      | cons c rest =>
        rw [scanAux_succ_miss hM] at hm
        obtain ⟨hshm, pre', post', heq', hpre', hpost'⟩ :=
          ih (some c) rest (by simpa using Nat.lt_of_succ_lt_succ hlen) m hm
        refine ⟨hshm, c :: pre', post', ?_, ?_, hpost'⟩
        · rw [heq']
          simp [List.cons_append, List.append_assoc]
        · rw [lastOr_cons]
          exact hpre'

/-- Completeness of the date scan: every shaped, boundary-delimited
occurrence is returned (non-overlap guarantees the left-to-right
non-overlapping scan cannot jump over one). -/
theorem scan_complete : ∀ (fuel : Nat) (prev : Option Char) (cs : List Char),
    cs.length < fuel → ∀ tok, DateOcc prev cs tok → tok ∈ scanAux dateM fuel prev cs := by
  intro fuel
  induction fuel with
  | zero => intro prev cs h; omega
  | succ fuel ih =>
    intro prev cs hlen tok hocc
    obtain ⟨hsh, pre, post, heq, hpre, hpost⟩ := hocc
    cases hM : dateM prev cs with
    | some L =>
      obtain ⟨hL10, hsh0, hbstart, hbend⟩ := dateM_inv hM
      subst hL10
      rw [scanAux_succ_hit hM]
      by_cases hpre0 : pre = []
      · subst hpre0
        rw [List.nil_append] at heq
        have hlt : tok.length = 10 := shape_length hsh
        have htk : cs.take 10 = tok := by
          rw [heq]
          exact List.take_left' hlt
        rw [htk]
        exact List.mem_cons_self ..
      · by_cases h9 : pre.length ≤ 9
        · exact (no_overlap (heq ▸ hM) hsh
            (List.length_pos.mpr hpre0) h9).elim
        · push_neg at h9
          have h10 : 10 ≤ pre.length := h9
          have htake_pre : cs.take 10 = pre.take 10 := by
            rw [heq, List.append_assoc, List.take_append_of_le_length h10]
          have hdrop : cs.drop 10 = pre.drop 10 ++ tok ++ post := by
            rw [heq, List.append_assoc, List.drop_append_of_le_length h10,
              ← List.append_assoc]
          have hdlen : (cs.drop 10).length < fuel := by
            have hd1 : (cs.drop 10).length = cs.length - 10 := List.length_drop ..
            have hd2 : 10 ≤ cs.length := by
              rw [heq]
              simp only [List.length_append]
              omega
            omega
          apply List.mem_cons_of_mem
          apply ih _ _ hdlen tok
          refine ⟨hsh, pre.drop 10, post, hdrop, ?_, hpost⟩
          have htne : pre.take 10 ≠ [] := by
            intro habs
            have hthis := congrArg List.length habs
            rw [List.length_take, List.length_nil] at hthis
            omega
          have hlast : lastOr prev pre = lastOr (cs.take 10).getLast? (pre.drop 10) := by
            conv_lhs => rw [← List.take_append_drop 10 pre]
            rw [lastOr_append _ _ htne, htake_pre]
          rw [← hlast]
          exact hpre
    | none =>
      cases cs with
      | nil =>
        exfalso
        have hnil := heq.symm
        rw [List.append_eq_nil, List.append_eq_nil] at hnil
        rw [hnil.1.2] at hsh
        simp [isDateShape] at hsh
      | cons c rest =>
        rw [scanAux_succ_miss hM]
        cases pre with
        | nil =>
          exfalso
          rw [List.nil_append] at heq
          have hmatch : dateM prev (tok ++ post) = some 10 :=
            dateM_of_head hsh (by
              unfold lastOr at hpre
              simpa using hpre) hpost
          rw [← heq, hM] at hmatch
          cases hmatch
        | cons p pre' =>
          have hc : c = p ∧ rest = pre' ++ tok ++ post := by
            simpa [List.cons_append, List.append_assoc] using heq
          apply ih (some c) rest (by simpa using Nat.lt_of_succ_lt_succ hlen) tok
          refine ⟨hsh, pre', post, hc.2, ?_, hpost⟩
          have hp := hpre
          rw [lastOr_cons] at hp
          rw [hc.1]
          exact hp

/-- The classifier's fold, abstracted over the (type, score) list. -/
def pickFold (l : List (DocType × ℚ)) (b : DocType × ℚ) : DocType × ℚ :=
  l.foldl (fun best x => if x.2 > best.2 then x else best) b

/-- The base is below a max-fold. -/
theorem le_foldl_max : ∀ (l : List ℚ) (a : ℚ), a ≤ l.foldl max a := by
  intro l
  induction l with
  | nil => intro a; exact le_refl a
  | cons x xs ih =>
    intro a
    exact le_trans (le_max_left a x) (ih (max a x))

/-- A max-fold is the base or an element. -/
theorem foldl_max_mem : ∀ (l : List ℚ) (a : ℚ),
    l.foldl max a = a ∨ l.foldl max a ∈ l := by
  intro l
  induction l with
  | nil => intro a; exact Or.inl rfl
  | cons x xs ih =>
    intro a
    rcases ih (max a x) with h | h
    · rcases max_choice a x with hm | hm
      · exact Or.inl (by simp only [List.foldl_cons]; rw [h, hm])
      · exact Or.inr (by simp only [List.foldl_cons]; rw [h, hm]; exact
          List.mem_cons_self ..)
    · exact Or.inr (List.mem_cons_of_mem _ (by simpa using h))

/-- The strict-improvement fold picks the FIRST element attaining the
maximum (and the base when nothing beats it). -/
theorem pickFold_eq : ∀ (l : List (DocType × ℚ)) (b : DocType × ℚ),
    pickFold l b =
      if (l.map Prod.snd).foldl max b.2 ≤ b.2 then b
      else (l.find? fun x => decide (x.2 = (l.map Prod.snd).foldl max b.2)).getD b := by
  intro l
  induction l with
  | nil => intro b; simp [pickFold]
  | cons x xs ih =>
    intro b
    have hstep : pickFold (x :: xs) b = pickFold xs (if x.2 > b.2 then x else b) := by
      simp [pickFold]
    rw [hstep]
    set bb := if x.2 > b.2 then x else b with hbbdef
    have hbb2 : bb.2 = max b.2 x.2 := by
      rw [hbbdef]
      split_ifs with h
      · exact (max_eq_right (le_of_lt h)).symm
      · exact (max_eq_left (le_of_not_lt h)).symm
    rw [ih bb]
    set M : ℚ := List.foldl max b.2 (List.map Prod.snd (x :: xs)) with hMdef
    have hM : List.foldl max bb.2 (List.map Prod.snd xs) = M := by
      rw [hMdef, hbb2]
      simp
    rw [hM]
    have hbbM : bb.2 ≤ M := hM ▸ le_foldl_max (xs.map Prod.snd) bb.2
    have hx2 : x.2 ≤ M := le_trans (le_trans (le_max_right b.2 x.2) hbb2.ge) hbbM
    have hb2 : b.2 ≤ M := le_trans (le_trans (le_max_left b.2 x.2) hbb2.ge) hbbM
    by_cases hle : M ≤ b.2
    · have hxb : ¬ x.2 > b.2 := not_lt.mpr (le_trans hx2 hle)
      have hbbb : bb = b := by rw [hbbdef, if_neg hxb]
      rw [hbbb, if_pos hle, if_pos hle]
    · rw [if_neg hle]
      by_cases hx : x.2 = M
      · have hxb : x.2 > b.2 := by rw [hx]; exact lt_of_not_le hle
        have hbbx : bb = x := by rw [hbbdef, if_pos hxb]
        rw [hbbx, if_pos (le_of_eq hx.symm)]
        rw [List.find?_cons_of_pos _ (by simpa using hx)]
        rfl
      · have hxlt : x.2 < M := lt_of_le_of_ne hx2 hx
        have hblt : b.2 < M := lt_of_not_le hle
        have hbblt : bb.2 < M := by rw [hbb2]; exact max_lt hblt hxlt
        rw [if_neg (not_le.mpr hbblt)]
        rw [List.find?_cons_of_neg _ (by simpa using hx)]
        have hex : M ∈ xs.map Prod.snd := by
          rcases foldl_max_mem (xs.map Prod.snd) bb.2 with h | h
          · rw [hM] at h
            exact absurd h.symm (ne_of_lt hbblt)
          · rw [hM] at h
            exact h
        obtain ⟨p, hp, hpM⟩ := List.mem_map.mp hex
        have hsome : (xs.find? fun z => decide (z.2 = M)).isSome := by
          rw [List.find?_isSome]
          exact ⟨p, hp, by simpa using hpM⟩
        obtain ⟨z, hz⟩ := Option.isSome_iff_exists.mp hsome
        rw [hz]
        rfl

/-- The source fold of `classifyDocument` is `pickFold` over the qualifying
scores. -/
theorem classifyDocument_pick (t : String) :
    ∀ (l : List DocType) (b : DocType × ℚ), 0 ≤ b.2 →
      l.foldl (fun best dt =>
        let cfg := DOC_TYPE_PATTERNS dt
        let m := docTally dt t
        if m ≥ cfg.minMatches then
          let score := (m : ℚ) * cfg.weight
          if score > best.2 then (dt, score) else best
        else best) b
      = pickFold (l.map fun dt => (dt, qualScore dt t)) b := by
  intro l
  induction l with
  | nil => intro b _; rfl
  | cons dt l ih =>
    intro b hb
    simp only [List.foldl_cons, List.map_cons]
    have hpick : pickFold ((dt, qualScore dt t) :: l.map fun dt => (dt, qualScore dt t)) b
        = pickFold (l.map fun dt => (dt, qualScore dt t))
            (if qualScore dt t > b.2 then (dt, qualScore dt t) else b) := by
      simp [pickFold]
    rw [hpick]
    by_cases hm : docTally dt t ≥ (DOC_TYPE_PATTERNS dt).minMatches
    · have hq : qualScore dt t = (docTally dt t : ℚ) * (DOC_TYPE_PATTERNS dt).weight := by
        unfold qualScore
        rw [if_pos hm]
      rw [if_pos hm]
      by_cases hgt : (docTally dt t : ℚ) * (DOC_TYPE_PATTERNS dt).weight > b.2
      · rw [if_pos hgt, if_pos (show qualScore dt t > b.2 by rw [hq]; exact hgt), hq]
        exact ih _ (le_of_lt (lt_of_le_of_lt hb hgt))
      · rw [if_neg hgt, if_neg (show ¬ qualScore dt t > b.2 by rw [hq]; exact hgt)]
        exact ih _ hb
    · have hq : qualScore dt t = 0 := by
        unfold qualScore
        rw [if_neg hm]
      rw [if_neg hm, if_neg (by rw [hq]; exact not_lt.mpr hb)]
      exact ih _ hb

/-- Bounds and spec agreement for the final rounding step. -/
theorem round_div_bounds (q : ℚ) (h0 : 0 ≤ q) (h1 : q ≤ 1) :
    0 ≤ (jsRound (q * 100) : ℚ) / 100 ∧ (jsRound (q * 100) : ℚ) / 100 ≤ 1 ∧
      (jsRound (q * 100) : ℚ) / 100 = roundAway2 q := by
  have ha : (0 : ℤ) ≤ jsRound (q * 100) := by
    unfold jsRound
    exact Int.floor_nonneg.mpr (by linarith)
  have hb : jsRound (q * 100) ≤ 100 := by
    unfold jsRound
    calc ⌊q * 100 + 1 / 2⌋ ≤ ⌊(201 : ℚ) / 2⌋ := Int.floor_le_floor (by linarith)
      _ = 100 := by decide
  refine ⟨div_nonneg (by exact_mod_cast ha) (by norm_num), ?_, ?_⟩
  · exact (div_le_one (by norm_num)).mpr (by exact_mod_cast hb)
  · unfold roundAway2 jsRound
    rw [if_pos h0, mul_comm q 100]

/-- C4: `calculateConfidence` always lands in `[0,1]` (for the non-negative
hit values the pipeline produces), equals the spec formula
`min(baseScore + citationBonus + docTypeBonus, 1)` rounded to two decimals
half-away-from-zero, is exactly 0 on empty hits / no citations / UNKNOWN, and
is clamped to exactly 1 (not 1.40) at base score 1 with all three citation
flags and PAPER_LIKE. -/
theorem calculateConfidence_claims :
    (∀ (hits : List (String × ℚ)) (cit : CitationSignals) (dt : DocType),
      (∀ p ∈ hits, 0 ≤ p.2) →
        0 ≤ calculateConfidence hits cit dt ∧
          calculateConfidence hits cit dt ≤ 1 ∧
          calculateConfidence hits cit dt = confidenceSpec hits cit dt) ∧
    calculateConfidence [] ⟨false, false, false⟩ .UNKNOWN = 0 ∧
    calculateConfidence [("X", 1)] ⟨true, true, true⟩ .PAPER_LIKE = 1 := by
  refine ⟨?_, by decide, by decide⟩
  intro hits cit dt hpos
  have hcb0 : (0 : ℚ) ≤
      (if cit.has_doi then (0.15 : ℚ) else 0) +
        (if cit.has_pmid then (0.15 : ℚ) else 0) +
        (if cit.has_arxiv then (0.10 : ℚ) else 0) := by
    split_ifs <;> norm_num
  have hdb0 : (0 : ℚ) ≤ docTypeBonus dt := by
    cases dt <;> norm_num [docTypeBonus]
  have hsum0 : (0 : ℚ) ≤ (hits.map Prod.snd).sum := by
    have h := mul_length_le_sum 0 (hits.map Prod.snd) ?_
    · simpa using h
    · intro v hv
      obtain ⟨p, hp, rfl⟩ := List.mem_map.mp hv
      exact hpos p hp
  have hmin0 : ∀ hlen : 0 < (hits.map Prod.snd).length,
      (0 : ℚ) ≤ min ((hits.map Prod.snd).sum / ((hits.map Prod.snd).length : ℚ)) 1 := by
    intro hlen
    refine le_min ?_ (by norm_num)
    have hlenq : (0 : ℚ) < ((hits.map Prod.snd).length : ℚ) := by exact_mod_cast hlen
    positivity
  simp only [calculateConfidence, confidenceSpec]
  have hBspec :
      (if (hits.map Prod.snd).length > 0 then
        max 0 (min ((hits.map Prod.snd).sum / ((hits.map Prod.snd).length : ℚ)) 1)
      else 0) =
      (if (hits.map Prod.snd).length > 0 then
        min ((hits.map Prod.snd).sum / ((hits.map Prod.snd).length : ℚ)) 1
      else 0) := by
    split_ifs with hlen
    · exact max_eq_right (hmin0 hlen)
    · rfl
  rw [hBspec]
  have hB0 : (0 : ℚ) ≤
      (if (hits.map Prod.snd).length > 0 then
        min ((hits.map Prod.snd).sum / ((hits.map Prod.snd).length : ℚ)) 1
      else 0) := by
    split_ifs with hlen
    · exact hmin0 hlen
    · exact le_refl 0
  have hpre0 : (0 : ℚ) ≤
      min ((if (hits.map Prod.snd).length > 0 then
          min ((hits.map Prod.snd).sum / ((hits.map Prod.snd).length : ℚ)) 1
        else 0) +
        ((if cit.has_doi then (0.15 : ℚ) else 0) +
          (if cit.has_pmid then (0.15 : ℚ) else 0) +
          (if cit.has_arxiv then (0.10 : ℚ) else 0)) +
        docTypeBonus dt) 1 :=
    le_min (by linarith) (by norm_num)
  have hpre1 :
      min ((if (hits.map Prod.snd).length > 0 then
          min ((hits.map Prod.snd).sum / ((hits.map Prod.snd).length : ℚ)) 1
        else 0) +
        ((if cit.has_doi then (0.15 : ℚ) else 0) +
          (if cit.has_pmid then (0.15 : ℚ) else 0) +
          (if cit.has_arxiv then (0.10 : ℚ) else 0)) +
        docTypeBonus dt) 1 ≤ 1 := min_le_right _ _
  exact round_div_bounds _ hpre0 hpre1

/-- C6: `classifyDocument` implements the spec's greedy best-of-five
classifier — candidates evaluated in the fixed order PAPER_LIKE,
REPORT_LIKE, MEMO_LIKE, PROTOCOL_LIKE, PROPOSAL_LIKE; each pattern tallied
at most once (presence); a type scores `tally × weight` only at or above its
`minMatches`; the maximum qualifying score wins with ties kept by the first
type in order; `UNKNOWN` when no type qualifies — and the text with all
seven PAPER_LIKE section headers classifies as PAPER_LIKE. -/
theorem classifyDocument_spec :
    (∀ t, classifyDocument t = classifySpec t) ∧
      classifyDocument
        "Abstract Introduction Methods Results Discussion Conclusion References" =
        DocType.PAPER_LIKE := by
  refine ⟨?_, by decide⟩
  intro t
  have h1 : classifyDocument t =
      (pickFold (docTypesOrder.map fun dt => (dt, qualScore dt t))
        (DocType.UNKNOWN, 0)).1 := by
    unfold classifyDocument
    rw [classifyDocument_pick t docTypesOrder (DocType.UNKNOWN, 0) (by norm_num)]
  rw [h1, pickFold_eq]
  have h2 : ((DocType.UNKNOWN, (0 : ℚ)) : DocType × ℚ).2 = 0 := rfl
  rw [h2]
  unfold classifySpec
  split_ifs with hle
  · rfl
  · cases hfind : (docTypesOrder.map fun dt => (dt, qualScore dt t)).find?
        (fun x => decide (x.2 =
          ((docTypesOrder.map fun dt => (dt, qualScore dt t)).map Prod.snd).foldl
            max 0)) with
    | none => rfl
    | some x => rfl

/-- Witness for C5's theorem at a concrete noisy-but-relevant text. -/
theorem noise_independence_witness :
    (analyzeSt CitState.init "mitochondrial function and energy drink").1.medicalTerms ≠ [] ∧
      0 < (analyzeSt CitState.init "mitochondrial function and energy drink").1.confidence ∧
      (analyzeSt CitState.init "mitochondrial function and energy drink").1.isNoise = true :=
  noise_independence CitState.init "mitochondrial function and energy drink"
    (by decide) (by decide)

/-! ## Membership and duplicate-freedom of the date fold -/

theorem mem_pushUnique (acc : List String) (x s : String) :
    s ∈ pushUnique acc x ↔ s ∈ acc ∨ s = x := by
  unfold pushUnique
  split_ifs with h
  · constructor
    · exact Or.inl
    · rintro (hs | rfl)
      · exact hs
      · exact h
  · simp

theorem nodup_pushUnique (acc : List String) (x : String) (h : acc.Nodup) :
    (pushUnique acc x).Nodup := by
  unfold pushUnique
  split_ifs with hx
  · exact h
  · simp [List.nodup_append, h, hx]

theorem mk_eq_iff (s : String) (m : List Char) : s = String.mk m ↔ s.data = m := by
  constructor
  · intro h
    rw [h]
  · intro h
    cases s
    cases h
    rfl

theorem mem_foldl_pushUnique (l : List (List Char)) :
    ∀ (acc : List String) (s : String),
      s ∈ l.foldl (fun acc m => pushUnique acc (String.mk m)) acc ↔
        s ∈ acc ∨ s.data ∈ l := by
  induction l with
  | nil =>
    intro acc s
    simp
  | cons m l ih =>
    intro acc s
    rw [List.foldl_cons, ih, mem_pushUnique, List.mem_cons, mk_eq_iff]
    tauto

theorem nodup_foldl_pushUnique (l : List (List Char)) :
    ∀ acc : List String, acc.Nodup →
      (l.foldl (fun acc m => pushUnique acc (String.mk m)) acc).Nodup := by
  induction l with
  | nil =>
    intro acc h
    exact h
  | cons m l ih =>
    intro acc h
    exact ih _ (nodup_pushUnique _ _ h)

theorem extractDates_mem_iff (t s : String) :
    s ∈ extractDates t ↔ DateToken s t := by
  unfold extractDates
  rw [mem_foldl_pushUnique]
  simp only [List.not_mem_nil, false_or]
  unfold scanM
  constructor
  · intro h
    obtain ⟨hsh, pre, post, heq, hpre, hpost⟩ :=
      scan_sound (t.data.length + 1) none t.data (by omega) s.data h
    rw [lastOr_none] at hpre
    exact ⟨hsh, pre, post, heq, hpre, hpost⟩
  · rintro ⟨hsh, pre, post, heq, hpre, hpost⟩
    apply scan_complete (t.data.length + 1) none t.data (by omega)
    refine ⟨hsh, pre, post, heq, ?_, hpost⟩
    rw [lastOr_none]
    exact hpre

/-- **C9.** `extractDates` returns exactly the distinct boundary-delimited
`YYYY-MM-DD`-shaped tokens of the text (the matches of
`/\b\d{4}-\d{2}-\d{2}\b/g`), with duplicates removed by the `Set`,
and on the concrete input of the spec it returns the single date
`"2017-12-19"`. -/
theorem extractDates_exact :
    (∀ t s : String, s ∈ extractDates t ↔ DateToken s t) ∧
    (∀ t : String, (extractDates t).Nodup) ∧
    extractDates "Document dated 2017-12-19 and 2017-12-19 again" = ["2017-12-19"] := by
  refine ⟨fun t s => extractDates_mem_iff t s, fun t => ?_, by decide⟩
  unfold extractDates
  exact nodup_foldl_pushUnique _ _ List.nodup_nil

end Pipeline

